import Mathlib

/-!
Shallow embedding of the Summa RAG ingestion and query pipeline
(src/backend/services.py, src/backend/utils.py, src/backend/main.py).

Text is modelled as `List Char`, raw byte strings as `List Nat`.
The langchain `RecursiveCharacterTextSplitter` used by
`RagService._split_documents` (services.py:714-722) is embedded in full with
its configured parameters: `chunk_size=1000`, `chunk_overlap=200`,
`length_function=len`, `is_separator_regex=False`, `add_start_index=True`,
and the splitter defaults `separators=["\n\n", "\n", " ", ""]`,
`keep_separator=True`, `strip_whitespace=True`.
-/

/-- The code points CPython's `str.isspace()` / `str.strip()` treat as
whitespace (`Py_UNICODE_ISSPACE`): TAB LF VT FF CR, the C1 separators
1C-1F, SPACE, NEL (85), NO-BREAK SPACE (A0), and the Unicode space
characters of categories Zs, Zl, Zp. -/
def pyWhitespace : List Nat :=
  [0x09, 0x0A, 0x0B, 0x0C, 0x0D, 0x1C, 0x1D, 0x1E, 0x1F, 0x20, 0x85, 0xA0,
   0x1680, 0x2000, 0x2001, 0x2002, 0x2003, 0x2004, 0x2005, 0x2006, 0x2007,
   0x2008, 0x2009, 0x200A, 0x2028, 0x2029, 0x202F, 0x205F, 0x3000]

/-- A character is Python whitespace. -/
def isPySpace (c : Char) : Bool := pyWhitespace.contains c.toNat

/-- `str.lstrip()`. -/
def lstrip (l : List Char) : List Char := l.dropWhile isPySpace

/-- `str.rstrip()`. -/
def rstrip (l : List Char) : List Char := (lstrip l.reverse).reverse

/-- `str.strip()`. -/
def pyStrip (l : List Char) : List Char := rstrip (lstrip l)

/-- `sep.join(parts)` (Python `str.join`). -/
def joinSep (sep : List Char) : List (List Char) → List Char
  | [] => []
  | [p] => p
  | p :: p2 :: rest => p ++ sep ++ joinSep sep (p2 :: rest)

/-- First occurrence of `sep` in the text: returns the part before the match
and the part after it.  Mirrors the leftmost-match scanning of Python
`re.split` on an escaped (literal) separator. -/
def findOcc (sep : List Char) : List Char → Option (List Char × List Char)
  | [] => if sep.isPrefixOf ([] : List Char) then some ([], []) else none
  | c :: rest =>
    if sep.isPrefixOf (c :: rest) then some ([], (c :: rest).drop sep.length)
    else (findOcc sep rest).map (fun p => (c :: p.1, p.2))

/-- Split on every non-overlapping occurrence of a nonempty literal separator,
left to right (Python `re.split(re.escape(sep), text)` without the captured
groups).  The fuel is the input length plus one; every recursive step consumes
at least one character of the text, so the fuel never runs out when the
separator is nonempty. -/
def splitOnFuel (sep : List Char) : Nat → List Char → List (List Char)
  | 0, text => [text]
  | fuel + 1, text =>
    match findOcc sep text with
    | none => [text]
    | some (before, after) => before :: splitOnFuel sep fuel after

/-- `re.split(re.escape(sep), text)` for a nonempty literal `sep`. -/
def splitOnL (sep text : List Char) : List (List Char) :=
  splitOnFuel sep (text.length + 1) text

/-- `_split_text_with_regex(text, sep, keep_separator=True)` from
langchain_text_splitters: split on the separator, re-attach each separator to
the front of the following piece, and drop empty pieces. -/
def splitKeepSep (sep text : List Char) : List (List Char) :=
  match splitOnL sep text with
  | [] => []
  | first :: rest => (first :: rest.map (fun p => sep ++ p)).filter (· ≠ [])

/-- `re.search(re.escape(sep), text)` for a literal separator: substring test. -/
def containsSub (sep : List Char) : List Char → Bool
  | [] => sep.isPrefixOf ([] : List Char)
  | c :: rest => sep.isPrefixOf (c :: rest) || containsSub sep rest

/-- The separator-selection loop at the top of
`RecursiveCharacterTextSplitter._split_text`: walk the separator list; an empty
separator or the first separator occurring in the text is chosen (the empty
separator and the exhausted list leave no further separators); otherwise the
last separator is the default. -/
def selectSep (text : List Char) : List (List Char) → List Char × List (List Char)
  | [] => ([], [])
  | [s] => if s = [] then ([], []) else (s, [])
  | s :: s2 :: rest =>
    if s = [] then ([], [])
    else if containsSub s text then (s, s2 :: rest)
    else selectSep text (s2 :: rest)

/-- `TextSplitter._join_docs(docs, separator)`: join, strip whitespace, and
drop the result when it is empty (Python returns `None` there and the caller
skips it). -/
def joinDocs (sep : List Char) (cur : List (List Char)) : List (List Char) :=
  let t := pyStrip (joinSep sep cur)
  if t = [] then [] else [t]

/-- The `while` loop inside `TextSplitter._merge_splits` that pops splits from
the front of the running window: keep popping while the running total exceeds
the chunk overlap, or while the next split still does not fit and the window is
nonempty.  (Python indexes `current_doc[0]`; with an empty window the total is
zero and the loop condition is false, which the `[]` case mirrors.) -/
def popLoop (size ovl sepLen ℓ : Nat) : List (List Char) → Nat → List (List Char) × Nat
  | [], total => ([], total)
  | c :: cs, total =>
    if total > ovl ∨ (total + ℓ + (if (c :: cs) ≠ [] then sepLen else 0) > size ∧ total > 0) then
      popLoop size ovl sepLen ℓ cs (total - (c.length + if cs ≠ [] then sepLen else 0))
    else (c :: cs, total)

/-- The main loop of `TextSplitter._merge_splits`: accumulate splits into a
window; when the next split would overflow `chunk_size`, emit the joined
window and slide it forward past the overlap. `cur` is the window, `total` its
Python running total, `acc` the emitted documents. -/
def mergeGo (size ovl : Nat) (sep : List Char) :
    List (List Char) → List (List Char) → Nat → List (List Char) → List (List Char)
  | [], cur, _, acc => acc ++ joinDocs sep cur
  | d :: ds, cur, total, acc =>
    let ℓ := d.length
    if total + ℓ + (if cur ≠ [] then sep.length else 0) > size then
      if cur ≠ [] then
        let acc2 := acc ++ joinDocs sep cur
        let pt := popLoop size ovl sep.length ℓ cur total
        mergeGo size ovl sep ds (pt.1 ++ [d])
          (pt.2 + ℓ + (if pt.1 ≠ [] then sep.length else 0)) acc2
      else
        mergeGo size ovl sep ds [d] (total + ℓ) acc
    else
      mergeGo size ovl sep ds (cur ++ [d]) (total + ℓ + (if cur ≠ [] then sep.length else 0)) acc

/-- `TextSplitter._merge_splits(splits, separator)`. -/
def mergeSplits (size ovl : Nat) (sep : List Char) (splits : List (List Char)) :
    List (List Char) :=
  mergeGo size ovl sep splits [] 0 []

/-- The good-splits loop in `RecursiveCharacterTextSplitter._split_text`:
short splits are buffered and merged; a long split flushes the buffer and
contributes its own (possibly recursive) output.  The recursive output for
long splits has been precomputed into the `Sum`: `inl` is a short split,
`inr` the emitted chunks of a long one. -/
def goodLoop (msplit : List (List Char) → List (List Char)) :
    List (List Char ⊕ List (List Char)) → List (List Char) → List (List Char)
  | [], good => if good = [] then [] else msplit good
  | Sum.inl s :: rest, good => goodLoop msplit rest (good ++ [s])
  | Sum.inr out :: rest, good =>
    (if good = [] then [] else msplit good) ++ out ++ goodLoop msplit rest []

/-- `RecursiveCharacterTextSplitter._split_text(text, separators)`.  The fuel
bounds the recursion depth: every recursive call receives a strictly shorter
separator list, so fuel equal to the number of separators suffices and the
fuel-zero branch is unreachable. -/
def splitTextFuel (size ovl : Nat) : Nat → List (List Char) → List Char → List (List Char)
  | 0, _, _ => []
  | fuel + 1, seps, text =>
    let sn := selectSep text seps
    let splits :=
      if sn.1 = [] then text.map (fun c => [c]) else splitKeepSep sn.1 text
    let processed := splits.map (fun s =>
      if s.length < size then Sum.inl s
      else if sn.2 = [] then Sum.inr [s]
      else Sum.inr (splitTextFuel size ovl fuel sn.2 s))
    goodLoop (mergeSplits size ovl []) processed []

/-- The default separator list of `RecursiveCharacterTextSplitter`. -/
def defaultSeparators : List (List Char) := [['\n', '\n'], ['\n'], [' '], []]

/-- `RecursiveCharacterTextSplitter.split_text` with the configuration of
`RagService._split_documents` (services.py:714-722): chunk size 1000, overlap
200, character length function, literal separators. -/
def split_text (text : List Char) : List (List Char) :=
  splitTextFuel 1000 200 defaultSeparators.length defaultSeparators text

/-- A langchain `Document` as built by `RagService.ingest_files` and
`ingest_uploaded_file` (services.py:667-671, 695-698): page content plus the
`source` metadata entry. -/
structure PyDocument where
  page_content : List Char
  source : List Char
deriving Repr, DecidableEq

/-- A chunk produced by `_split_documents`: page content, inherited `source`
metadata, and the `start_index` metadata added by `add_start_index=True`. -/
structure ChunkDoc where
  page_content : List Char
  source : List Char
  start_index : Int
deriving Repr, DecidableEq

/-- Search for `pat` in a suffix of the text, `i` being the absolute index of
the head of that suffix; returns the absolute index of the first match. -/
def pyFindAux (pat : List Char) : List Char → Nat → Option Nat
  | [], i => if pat.isPrefixOf ([] : List Char) then some i else none
  | c :: rest, i =>
    if pat.isPrefixOf (c :: rest) then some i else pyFindAux pat rest (i + 1)

/-- Python `text.find(pat, start)`: first index at or after `start` where
`pat` occurs, `-1` when absent or when `start` exceeds the length. -/
def pyFind (text pat : List Char) (start : Nat) : Int :=
  if start > text.length then -1
  else
    match pyFindAux pat (text.drop start) start with
    | some i => (i : Int)
    | none => -1

/-- The `add_start_index` bookkeeping of `TextSplitter.create_documents`: each
chunk's start offset is located with
`text.find(chunk, max(0, index + previous_chunk_len - chunk_overlap))`. -/
def assignStartIdx (ovl : Nat) (text : List Char) :
    List (List Char) → Int → Nat → List (Int × List Char)
  | [], _, _ => []
  | chunk :: rest, index, prevLen =>
    let offset : Int := index + (prevLen : Int) - (ovl : Int)
    let idx : Int := pyFind text chunk offset.toNat
    (idx, chunk) :: assignStartIdx ovl text rest idx chunk.length

/-- `RagService._split_documents` (services.py:714-722): split every
document's page content with the configured splitter, tagging each chunk with
the document's `source` and its `start_index`. -/
def split_documents (documents : List PyDocument) : List ChunkDoc :=
  (documents.map (fun d =>
    (assignStartIdx 200 d.page_content (split_text d.page_content) 0 0).map
      (fun p => ChunkDoc.mk p.2 d.source p.1))).flatten

/-- A UTF-8 continuation byte. -/
def isCont (b : Nat) : Bool := 0x80 ≤ b && b ≤ 0xBF

/-- Lower bound of the first continuation byte for a 3- or 4-byte lead. -/
def cont1Lo (b : Nat) : Nat := if b = 0xE0 then 0xA0 else if b = 0xF0 then 0x90 else 0x80

/-- Upper bound of the first continuation byte for a 3- or 4-byte lead. -/
def cont1Hi (b : Nat) : Nat := if b = 0xED then 0x9F else if b = 0xF4 then 0x8F else 0xBF

/-- CPython `bytes.decode("utf-8", errors="ignore")` as used by
`LocalFileService.get_uploaded_file_content` (services.py:201) and the
`errors="ignore"` file read of `get_content` (services.py:159): decode UTF-8
and silently skip the maximal subpart of every invalid sequence.  Valid lead
and continuation ranges follow the Unicode table: C2..DF; E0 (A0..BF),
ED (80..9F), other E1..EF (80..BF); F0 (90..BF), F1..F3 (80..BF),
F4 (80..8F).  Truncated sequences at the end of input are dropped. -/
def decodeUtf8Fuel : Nat → List Nat → List Char
  | 0, _ => []
  | _ + 1, [] => []
  | fuel + 1, b :: rest =>
    if b < 0x80 then Char.ofNat b :: decodeUtf8Fuel fuel rest
    else if 0xC2 ≤ b && b ≤ 0xDF then
      match rest with
      | [] => []
      | c1 :: rest1 =>
        if isCont c1 then
          Char.ofNat ((b - 0xC0) * 0x40 + (c1 - 0x80)) :: decodeUtf8Fuel fuel rest1
        else decodeUtf8Fuel fuel (c1 :: rest1)
    else if 0xE0 ≤ b && b ≤ 0xEF then
      match rest with
      | [] => []
      | [c1] => if cont1Lo b ≤ c1 && c1 ≤ cont1Hi b then [] else decodeUtf8Fuel fuel [c1]
      | c1 :: c2 :: rest2 =>
        if cont1Lo b ≤ c1 && c1 ≤ cont1Hi b then
          if isCont c2 then
            Char.ofNat ((b - 0xE0) * 0x1000 + (c1 - 0x80) * 0x40 + (c2 - 0x80)) ::
              decodeUtf8Fuel fuel rest2
          else decodeUtf8Fuel fuel (c2 :: rest2)
        else decodeUtf8Fuel fuel (c1 :: c2 :: rest2)
    else if 0xF0 ≤ b && b ≤ 0xF4 then
      match rest with
      | [] => []
      | [c1] => if cont1Lo b ≤ c1 && c1 ≤ cont1Hi b then [] else decodeUtf8Fuel fuel [c1]
      | [c1, c2] =>
        if cont1Lo b ≤ c1 && c1 ≤ cont1Hi b then
          if isCont c2 then [] else decodeUtf8Fuel fuel [c2]
        else decodeUtf8Fuel fuel [c1, c2]
      | c1 :: c2 :: c3 :: rest3 =>
        if cont1Lo b ≤ c1 && c1 ≤ cont1Hi b then
          if isCont c2 then
            if isCont c3 then
              Char.ofNat ((b - 0xF0) * 0x40000 + (c1 - 0x80) * 0x1000 +
                  (c2 - 0x80) * 0x40 + (c3 - 0x80)) :: decodeUtf8Fuel fuel rest3
            else decodeUtf8Fuel fuel (c3 :: rest3)
          else decodeUtf8Fuel fuel (c2 :: c3 :: rest3)
        else decodeUtf8Fuel fuel (c1 :: c2 :: c3 :: rest3)
    else decodeUtf8Fuel fuel rest

/-- `bytes.decode("utf-8", errors="ignore")`.  Every step of
`decodeUtf8Fuel` consumes at least one byte, so fuel equal to the byte count
plus one never runs out. -/
def decodeUtf8Ignore (bs : List Nat) : List Char :=
  decodeUtf8Fuel (bs.length + 1) bs

/-- Python `str.rfind(ch)`: index of the last occurrence of a character,
`-1` when absent. -/
def pyRFindChar (ch : Char) : List Char → Int
  | [] => -1
  | c :: rest =>
    let r := pyRFindChar ch rest
    if r ≥ 0 then r + 1 else if c = ch then 0 else -1

/-- The scan loop of `os.path.splitext`: starting at the index after the last
path separator, look for a character other than a dot strictly before the
last-dot index; `k` counts the remaining indices to inspect. -/
def splitextScan (p : List Char) : Nat → Nat → Bool
  | _, 0 => false
  | fi, k + 1 => if p.getD fi '.' ≠ '.' then true else splitextScan p (fi + 1) k

/-- Python `os.path.splitext`: split off the extension at the last dot,
provided that dot comes after the last `/` and the base name does not consist
solely of leading dots. -/
def splitext (p : List Char) : List Char × List Char :=
  let si := pyRFindChar '/' p
  let di := pyRFindChar '.' p
  if di > si then
    if splitextScan p (si + 1).toNat (di.toNat - (si + 1).toNat) then
      (p.take di.toNat, p.drop di.toNat)
    else (p, [])
  else (p, [])

/-- `os.path.splitext(filename)[1].lower()` as computed in
`get_uploaded_file_content` (services.py:194). -/
def extOf (filename : List Char) : List Char := (splitext filename).2.map Char.toLower

/-- An uploaded file: its name and raw byte content. -/
structure UploadedFile where
  filename : List Char
  bytes : List Nat
deriving Repr, DecidableEq

/-- `LocalFileService.get_uploaded_file_content` (services.py:184-217), with
the external PDF/DOCX/PPTX extractors abstracted as parameters: markdown and
text bytes are decoded as UTF-8 with `errors="ignore"`; an unsupported
extension raises. -/
def get_uploaded_file_content (readPdf readDocx readPptx : List Nat → List Char)
    (f : UploadedFile) : Except (List Char) (List Char) :=
  let ext := extOf f.filename
  if ext = (".md").toList ∨ ext = (".txt").toList then
    Except.ok (decodeUtf8Ignore f.bytes)
  else if ext = (".pdf").toList then Except.ok (readPdf f.bytes)
  else if ext = (".docx").toList then Except.ok (readDocx f.bytes)
  else if ext = (".pptx").toList then Except.ok (readPptx f.bytes)
  else Except.error ("Binary file content not displayable in text view yet.").toList

/-- A stored vector-index entry: the id assigned at insertion, the stored
chunk, and its embedding vector.  Models the `(id, vector, text, metadata)`
tuples held by the two langchain stores; embeddings are abstracted as integer
vectors produced by a caller-supplied embedding function. -/
structure Entry where
  eid : Nat
  chunk : ChunkDoc
  vec : List Int
deriving Repr, DecidableEq

/-- The combined state of the two vector-store singletons created in
main.py:88-89: `RAG_SERVICE` holds the durable Chroma collection,
`RAG_SERVICE_IM` the ephemeral `InMemoryVectorStore` (services.py:646-656).
Ids are assigned from one fresh counter. -/
structure RagState where
  durable : List Entry
  ephemeral : List Entry
  nextId : Nat
deriving Repr, DecidableEq

/-- Both stores start empty. -/
def initState : RagState := RagState.mk [] [] 0

/-- Build entries for newly added chunks with consecutive fresh ids. -/
def mkEntries (embed : List Char → List Int) (base : Nat) : List ChunkDoc → List Entry
  | [] => []
  | c :: rest => Entry.mk base c (embed c.page_content) :: mkEntries embed (base + 1) rest

/-- `vectorstore.add_documents(chunks)` against the store selected by the
service's `inmemory` constructor flag (services.py:646-656, 675, 701): embed
and append every chunk, returning the assigned ids in input order. -/
def add_documents (embed : List Char → List Int) (inmemory : Bool)
    (chunks : List ChunkDoc) (st : RagState) : List Nat × RagState :=
  let entries := mkEntries embed st.nextId chunks
  let ids := entries.map (·.eid)
  if inmemory then
    (ids, RagState.mk st.durable (st.ephemeral ++ entries) (st.nextId + chunks.length))
  else
    (ids, RagState.mk (st.durable ++ entries) st.ephemeral (st.nextId + chunks.length))

/-- Inner-product similarity score between integer vectors. -/
def dotInt : List Int → List Int → Int
  | [], _ => 0
  | _ :: _, [] => 0
  | a :: xs, b :: ys => a * b + dotInt xs ys

/-- Insert one scored entry into a list ordered by descending score. -/
def insertDesc (x : Int × Entry) : List (Int × Entry) → List (Int × Entry)
  | [] => [x]
  | y :: ys => if x.1 > y.1 then x :: y :: ys else y :: insertDesc x ys

/-- Order scored entries by descending score. -/
def sortDesc : List (Int × Entry) → List (Int × Entry)
  | [] => []
  | x :: xs => insertDesc x (sortDesc xs)

/-- `vectorstore.similarity_search(query, k)` against one store: score every
stored entry against the embedded query, order by descending similarity, and
return the first `k` entries. -/
def similarity_search (embed : List Char → List Int) (store : List Entry)
    (query : List Char) (k : Nat) : List Entry :=
  ((sortDesc (store.map (fun e => (dotInt (embed query) e.vec, e)))).take k).map (·.2)

/-- `RagService._vector_search` (services.py:724-728) of the durable service
(`inmemory = false`) or the ephemeral one (`inmemory = true`). -/
def vector_search (embed : List Char → List Int) (inmemory : Bool)
    (query : List Char) (k : Nat) (st : RagState) : List Entry :=
  similarity_search embed (if inmemory then st.ephemeral else st.durable) query k

/-- One ingestion step against one of the two service singletons: add the
given chunks to the store selected by the `inmemory` flag. -/
inductive RagOp where
  | add (inmemory : Bool) (chunks : List ChunkDoc)
deriving Repr, DecidableEq

/-- Run a sequence of ingestion steps from a starting state. -/
def runOps (embed : List Char → List Int) : List RagOp → RagState → RagState
  | [], st => st
  | RagOp.add im cs :: rest, st => runOps embed rest (add_documents embed im cs st).2

/-- Chat message roles. -/
inductive Role where
  | system
  | user
deriving Repr, DecidableEq

/-- A chat message as constructed by `llm_query_with_context`:
`SystemMessage` or `HumanMessage` with string content. -/
structure Msg where
  role : Role
  content : List Char
deriving Repr, DecidableEq

/-- The fixed instruction text of the system prompt built by
`LLMService.llm_query_with_context` (services.py:610-615). -/
def ragInstructions : List Char :=
  ("You are a helpful assistant specialized in answering questions based solely on the provided text.\n1. Answer the user's question **strictly** using only the information inside the <context> tags below.\n2. If the answer is not contained in the context, explicitly say you don't know. Do not make up an answer.\n3. Cite the source for your answer using the '(Source: ...)' format provided in the text.\n4. Do not use emojis. Keep the answer simple, concise, and professional.\n\n").toList

/-- `LLMService.llm_query_with_context` (services.py:608-624): one system
message carrying the instructions and the context wrapped in `<context>`
tags, and one human message carrying the raw query. -/
def llm_query_with_context_messages (query context_text : List Char) : List Msg :=
  [Msg.mk Role.system
      (ragInstructions ++ ("<context>\n").toList ++ context_text ++ ("\n</context>").toList),
   Msg.mk Role.user query]

/-- The provenance annotation applied to each retrieved chunk in
`RagService.query_with_context` (services.py:733-734):
`f"{doc.page_content} (Source: {doc.metadata['source']})"`. -/
def annotateSource (text source : List Char) : List Char :=
  text ++ (" (Source: ").toList ++ source ++ (")").toList

/-- The context block of `query_with_context` (services.py:735): the
annotated chunks joined by a blank line (`"\n\n".join`). -/
def contextText (docs : List ChunkDoc) : List Char :=
  joinSep (("\n\n").toList) (docs.map (fun d => annotateSource d.page_content d.source))

/-- `RagService.query_with_context` (services.py:730-739) up to the LLM call:
the messages sent to the chat model for a query, given the retrieved chunks. -/
def query_with_context_messages (query : List Char) (retrieved : List ChunkDoc) : List Msg :=
  llm_query_with_context_messages query (contextText retrieved)

/-- The methods defined on `class RagService` (services.py:629-739), in
source order. -/
def ragServiceMethods : List (List Char) :=
  [("__init__").toList, ("ingest_files").toList, ("ingest_uploaded_file").toList,
   ("_split_documents").toList, ("_vector_search").toList, ("query_with_context").toList]

/-- The method name that the streaming endpoint `rag_query_stream`
(main.py:334-337) invokes on the `RAG_SERVICE` singleton:
`RAG_SERVICE.query_with_context_stream(request.query)`. -/
def streamEndpointMethod : List Char := ("query_with_context_stream").toList

/-- The observable HTTP world seen by `backend.utils`: the status code of the
API root (`GET {API_URL}`), and the status code and `content` body of
`GET {API_URL}/files/content?path=...` per path. -/
structure HttpWorld where
  apiStatus : Nat
  fileStatus : List Char → Nat
  fileContent : List Char → List Char

/-- `utils.test_api` (utils.py:36-43): requests the API root and raises when
the status is not 200. -/
def test_api (w : HttpWorld) : Except (List Char) Unit :=
  if w.apiStatus ≠ 200 then Except.error (("Failed to get API").toList) else Except.ok ()

/-- `utils.get_file_content` (utils.py:55-63): requests
`/files/content` for one path; a non-200 status raises, otherwise the JSON
`content` field is returned. -/
def get_file_content (w : HttpWorld) (path : List Char) : Except (List Char) (List Char) :=
  if w.fileStatus path ≠ 200 then Except.error (("Failed to get file content").toList)
  else Except.ok (w.fileContent path)

/-- The fetch loop of `RagService.ingest_files` (services.py:663-672): fetch
each path in order, building one `Document` per path; the first failure
aborts the call.  The second component records the paths for which a
`/files/content` request was issued. -/
def fetchDocs (w : HttpWorld) : List (List Char) →
    Except (List Char) (List PyDocument) × List (List Char)
  | [] => (Except.ok [], [])
  | p :: ps =>
    match get_file_content w p with
    | Except.error e => (Except.error e, [p])
    | Except.ok c =>
      let r := fetchDocs w ps
      (r.1.map (fun ds => PyDocument.mk c p :: ds), p :: r.2)

/-- Result dictionary of `ingest_files` (services.py:677-681). -/
structure IngestResult where
  status : List Char
  document_ids : List Nat
  message : List Char
deriving Repr, DecidableEq

/-- `RagService.ingest_files` (services.py:659-684): first check the API
root, then fetch every file through the backend `/files/content` endpoint,
chunk, store, and report.  Returns the result (or the propagated exception),
the resulting store state, and the paths for which a content fetch was
issued. -/
def ingest_files (w : HttpWorld) (embed : List Char → List Int) (inmemory : Bool)
    (paths : List (List Char)) (st : RagState) :
    Except (List Char) IngestResult × RagState × List (List Char) :=
  match test_api w with
  | Except.error e => (Except.error e, st, [])
  | Except.ok _ =>
    match fetchDocs w paths with
    | (Except.error e, tr) => (Except.error e, st, tr)
    | (Except.ok docs, tr) =>
      let chunks := split_documents docs
      let r := add_documents embed inmemory chunks st
      (Except.ok (IngestResult.mk (("success").toList) r.1
          ((("Successfully ingested ").toList) ++ (Nat.repr paths.length).toList ++
            ((" files.").toList))),
        r.2, tr)

/-- Result dictionary of `ingest_uploaded_file` (services.py:703-709). -/
structure UploadResult where
  status : List Char
  document_ids : List Nat
  message : List Char
  content : List Char
  filename : List Char
deriving Repr, DecidableEq

/-- `RagService.ingest_uploaded_file` (services.py:686-712): extract the
uploaded file's text, chunk it with the file name as source, store the
chunks, and return the result carrying the extracted content and the file
name. -/
def ingest_uploaded_file (readPdf readDocx readPptx : List Nat → List Char)
    (embed : List Char → List Int) (inmemory : Bool)
    (f : UploadedFile) (st : RagState) :
    Except (List Char) (UploadResult × RagState) :=
  match get_uploaded_file_content readPdf readDocx readPptx f with
  | Except.error e => Except.error e
  | Except.ok content =>
    let chunks := split_documents [PyDocument.mk content f.filename]
    let r := add_documents embed inmemory chunks st
    Except.ok (UploadResult.mk (("success").toList) r.1
      (("Successfully ingested uploaded file.").toList) content f.filename, r.2)

/-- No Python whitespace occurs in the text (so no splitter separator matches
and stripping is the identity). -/
def wsFree (l : List Char) : Bool := l.all (fun c => !(isPySpace c))

/-- The reconstruction prescribed by the chunk-coverage property: concatenate
each non-final chunk's first `length - overlap` characters, followed by the
final chunk in full. -/
def reconstructPrefixes (ovl : Nat) : List (List Char) → List Char
  | [] => []
  | [c] => c
  | c :: c2 :: rest => c.take (c.length - ovl) ++ reconstructPrefixes ovl (c2 :: rest)

/-- Closed-form description of the chunks the splitter produces on
whitespace-free text: windows of 1000 characters advancing by 800. -/
def chunksSpec (T : List Char) : List (List Char) :=
  if T.length ≤ 1000 then (if T = [] then [] else [T])
  else T.take 1000 :: chunksSpec (T.drop 800)
termination_by T.length
decreasing_by simp [List.length_drop]; omega

/-- Store invariant: every stored id is below the fresh counter and the two
stores hold disjoint id sets. -/
def StateInv (st : RagState) : Prop :=
  (∀ e ∈ st.durable, e.eid < st.nextId) ∧
  (∀ e ∈ st.ephemeral, e.eid < st.nextId) ∧
  (∀ e ∈ st.durable, ∀ e2 ∈ st.ephemeral, e.eid ≠ e2.eid)

/-- Claim C9: running the chunker twice on the same input yields identical
chunk sequences: the same number of chunks, with pairwise equal chunk texts
and pairwise equal start offsets. -/
theorem claim_C9_determinism (docs : List PyDocument) (r1 r2 : List ChunkDoc)
    (h1 : r1 = split_documents docs) (h2 : r2 = split_documents docs) :
    r1.length = r2.length ∧
    ∀ i (ha : i < r1.length) (hb : i < r2.length),
      (r1.get ⟨i, ha⟩).page_content = (r2.get ⟨i, hb⟩).page_content ∧
      (r1.get ⟨i, ha⟩).start_index = (r2.get ⟨i, hb⟩).start_index := by
  subst h1; subst h2
  exact ⟨rfl, fun i ha hb => ⟨rfl, rfl⟩⟩

/-- Witness for C9 at a concrete document list. -/
theorem claim_C9_determinism_witness :
    (split_documents [PyDocument.mk (("ab").toList) (("s").toList)]).length =
      (split_documents [PyDocument.mk (("ab").toList) (("s").toList)]).length :=
  (claim_C9_determinism [PyDocument.mk (("ab").toList) (("s").toList)]
    (split_documents [PyDocument.mk (("ab").toList) (("s").toList)])
    (split_documents [PyDocument.mk (("ab").toList) (("s").toList)]) rfl rfl).1

/-- Claim C2: for every query and non-empty retrieved-chunk list, the
composed prompt is exactly one system message carrying the instructions plus
the concatenated context — each chunk's text suffixed with
" (Source: <source_id>)" from its own metadata and the suffixed chunks joined
by a blank line — and one user message carrying the raw query. -/
theorem claim_C2_prompt_structure (query : List Char) (docs : List ChunkDoc)
    (_hne : docs ≠ []) :
    query_with_context_messages query docs =
      [Msg.mk Role.system
          (ragInstructions ++ (("<context>\n").toList) ++
            joinSep (("\n\n").toList)
              (docs.map (fun d =>
                d.page_content ++ ((" (Source: ").toList) ++ d.source ++ ((")").toList))) ++
            (("\n</context>").toList)),
        Msg.mk Role.user query] := rfl

/-- Witness for C2 at a concrete query and chunk list. -/
theorem claim_C2_prompt_structure_witness :
    query_with_context_messages (("hi").toList)
        [ChunkDoc.mk (("x").toList) (("s.txt").toList) 0] =
      [Msg.mk Role.system
          (ragInstructions ++ (("<context>\n").toList) ++
            joinSep (("\n\n").toList)
              ([ChunkDoc.mk (("x").toList) (("s.txt").toList) 0].map (fun d =>
                d.page_content ++ ((" (Source: ").toList) ++ d.source ++ ((")").toList))) ++
            (("\n</context>").toList)),
        Msg.mk Role.user (("hi").toList)] :=
  claim_C2_prompt_structure (("hi").toList)
    [ChunkDoc.mk (("x").toList) (("s.txt").toList) 0] (by decide)

/-- Claim C6: searching a vector index containing zero entries returns the
empty result list — for the raw store-level search, and for the service-level
search of either service over the empty initial state. -/
theorem claim_C6_empty_search (embed : List Char → List Int) (query : List Char) (k : Nat) :
    similarity_search embed [] query k = [] ∧
    vector_search embed true query k initState = [] ∧
    vector_search embed false query k initState = [] := by
  refine ⟨?_, ?_, ?_⟩ <;> simp [similarity_search, vector_search, initState, sortDesc]

/-- Claim C4: the streaming endpoint `rag_query_stream` (main.py:334-337)
invokes `query_with_context_stream` on the `RagService` singleton, but the
`RagService` class (services.py:629-739) defines no method of that name, so
every streaming query fails with an `AttributeError` instead of yielding text
fragments. -/
theorem claim_C4_stream_method_missing : streamEndpointMethod ∉ ragServiceMethods := by
  decide

/-- Claim C10: when the API-root reachability check returns a non-200 status,
`ingest_files` propagates the exception before any document is read, chunked,
or stored: the store state is returned unchanged and no `/files/content`
fetch is issued. -/
theorem claim_C10_api_gate (w : HttpWorld) (embed : List Char → List Int)
    (inmemory : Bool) (paths : List (List Char)) (st : RagState)
    (h : w.apiStatus ≠ 200) :
    ingest_files w embed inmemory paths st =
      (Except.error (("Failed to get API").toList), st, []) := by
  simp [ingest_files, test_api, h]

/-- Witness for C10 at a concrete unreachable world. -/
theorem claim_C10_api_gate_witness :
    ingest_files (HttpWorld.mk 500 (fun _ => 200) (fun _ => [])) (fun _ => [1]) false
        [(("a.md").toList)] initState =
      (Except.error (("Failed to get API").toList), initState, []) :=
  claim_C10_api_gate (HttpWorld.mk 500 (fun _ => 200) (fun _ => [])) (fun _ => [1]) false
    [(("a.md").toList)] initState (by decide)

/-- Claim C3 counterexample: ingesting a document whose extracted text is
empty is not rejected: `ingest_files` returns a success result with an empty
id list (and the code base contains no `EmptyDocumentError` at all). -/
theorem claim_C3_counterexample :
    ingest_files (HttpWorld.mk 200 (fun _ => 200) (fun _ => [])) (fun _ => [1]) false
        [(("empty.txt").toList)] initState =
      (Except.ok (IngestResult.mk (("success").toList) []
          (("Successfully ingested 1 files.").toList)),
        initState, [(("empty.txt").toList)]) := by
  rfl

/-- Claim C3 amended: empty extracted text yields zero chunks, but the
orchestrator performs no empty-document rejection: ingestion proceeds through
chunking and storage and returns a success result with an empty id list,
leaving the store unchanged. -/
theorem claim_C3_amended (w : HttpWorld) (embed : List Char → List Int) (inmemory : Bool)
    (path : List Char) (st : RagState)
    (hapi : w.apiStatus = 200) (hfs : w.fileStatus path = 200)
    (hfc : w.fileContent path = []) :
    split_documents [PyDocument.mk [] path] = [] ∧
    ingest_files w embed inmemory [path] st =
      (Except.ok (IngestResult.mk (("success").toList) []
          (("Successfully ingested 1 files.").toList)), st, [path]) := by
  refine ⟨rfl, ?_⟩
  have h1 : get_file_content w path = Except.ok [] := by
    simp [get_file_content, hfs, hfc]
  have h2 : fetchDocs w [path] = (Except.ok [PyDocument.mk [] path], [path]) := by
    simp [fetchDocs, h1, Except.map]
  have h3 : test_api w = Except.ok () := by
    simp [test_api, hapi]
  cases inmemory <;>
    simp [ingest_files, h3, h2, add_documents, mkEntries, split_documents, split_text] <;>
    exact ⟨rfl, rfl⟩

/-- Witness for the amended C3 at a concrete world and path. -/
theorem claim_C3_amended_witness :
    split_documents [PyDocument.mk [] (("e.txt").toList)] = [] ∧
    ingest_files (HttpWorld.mk 200 (fun _ => 200) (fun _ => [])) (fun _ => [1]) true
        [(("e.txt").toList)] initState =
      (Except.ok (IngestResult.mk (("success").toList) []
          (("Successfully ingested 1 files.").toList)), initState, [(("e.txt").toList)]) :=
  claim_C3_amended (HttpWorld.mk 200 (fun _ => 200) (fun _ => [])) (fun _ => [1]) true
    (("e.txt").toList) initState rfl rfl rfl

/-- All-ASCII byte lists decode to themselves, character for character. -/
theorem decodeUtf8Fuel_ascii : ∀ (fuel : Nat) (t : List Nat), t.length < fuel →
    (∀ b ∈ t, b < 0x80) → decodeUtf8Fuel fuel t = t.map Char.ofNat := by
  intro fuel
  induction fuel with
  | zero => intro t ht _; omega
  | succ f ih =>
    intro t ht hb
    cases t with
    | nil => rfl
    | cons b rest =>
      have hb0 : b < 0x80 := hb b (List.mem_cons_self b rest)
      simp only [decodeUtf8Fuel, if_pos hb0, List.map_cons, List.cons.injEq, true_and]
      exact ih rest (by simp at ht; omega) (fun x hx => hb x (List.mem_cons_of_mem _ hx))

/-- Decoding drops an isolated invalid byte 0xFF between ASCII runs. -/
theorem decodeUtf8Fuel_drop_ff : ∀ (s : List Nat) (fuel : Nat) (t : List Nat),
    (s ++ 0xFF :: t).length < fuel → (∀ b ∈ s, b < 0x80) → (∀ b ∈ t, b < 0x80) →
    decodeUtf8Fuel fuel (s ++ 0xFF :: t) = s.map Char.ofNat ++ t.map Char.ofNat := by
  intro s
  induction s with
  | nil =>
    intro fuel t hlen _ ht
    cases fuel with
    | zero => simp at hlen
    | succ f =>
      show decodeUtf8Fuel (f + 1) (0xFF :: t) = _
      have h1 : ¬ ((0xFF : Nat) < 0x80) := by decide
      have h2 : ((0xC2 ≤ (0xFF : Nat)) && ((0xFF : Nat) ≤ 0xDF)) = false := by decide
      have h3 : ((0xE0 ≤ (0xFF : Nat)) && ((0xFF : Nat) ≤ 0xEF)) = false := by decide
      have h4 : ((0xF0 ≤ (0xFF : Nat)) && ((0xFF : Nat) ≤ 0xF4)) = false := by decide
      simp only [decodeUtf8Fuel, h1, h2, h3, h4, if_false, if_neg, Bool.false_eq_true,
        List.map_nil, List.nil_append]
      exact decodeUtf8Fuel_ascii f t (by simp at hlen; omega) ht
  | cons a s2 ih =>
    intro fuel t hlen hs ht
    cases fuel with
    | zero => simp at hlen
    | succ f =>
      have ha : a < 0x80 := hs a (List.mem_cons_self a s2)
      show decodeUtf8Fuel (f + 1) (a :: (s2 ++ 0xFF :: t)) = _
      simp only [decodeUtf8Fuel, if_pos ha, List.map_cons, List.cons_append, List.cons.injEq,
        true_and]
      exact ih f t (by simp at hlen ⊢; omega) (fun x hx => hs x (List.mem_cons_of_mem _ hx)) ht

/-- Claim C8 amended: text/markdown extraction never fails on invalid UTF-8
and returns a string, but invalid byte sequences are silently dropped by the
`errors="ignore"` handler, not replaced: an invalid byte between two ASCII
runs leaves no trace in the decoded text. -/
theorem claim_C8_amended (s t : List Nat)
    (hs : ∀ b ∈ s, b < 0x80) (ht : ∀ b ∈ t, b < 0x80) :
    decodeUtf8Ignore (s ++ 0xFF :: t) = s.map Char.ofNat ++ t.map Char.ofNat :=
  decodeUtf8Fuel_drop_ff s ((s ++ 0xFF :: t).length + 1) t (Nat.lt_succ_self _) hs ht

/-- Witness for the amended C8 at concrete bytes. -/
theorem claim_C8_amended_witness :
    decodeUtf8Ignore [97, 255, 98] = [97].map Char.ofNat ++ [98].map Char.ofNat :=
  claim_C8_amended [97] [98] (by decide) (by decide)

/-- Claim C8 counterexample: decoding b"a\xffb" yields "ab" — the invalid
byte is silently dropped (the output has only two characters and contains no
U+FFFD replacement character), contradicting "replaced, not silently
dropped". -/
theorem claim_C8_counterexample :
    decodeUtf8Ignore [97, 255, 98] = ['a', 'b'] ∧
    (decodeUtf8Ignore [97, 255, 98]).length = 2 ∧
    '�' ∉ decodeUtf8Ignore [97, 255, 98] := by
  decide

/-- Claim C7: for every uploaded file whose (lower-cased) extension is
supported, uploaded-file ingestion succeeds and its result carries status
"success", the assigned document ids, the fixed message, the full extracted
text as `content`, and the uploaded file's name as `filename`. -/
theorem claim_C7_upload_result (readPdf readDocx readPptx : List Nat → List Char)
    (embed : List Char → List Int) (inmemory : Bool) (f : UploadedFile) (st : RagState)
    (h : extOf f.filename ∈
      [((".md").toList), ((".txt").toList), ((".pdf").toList),
        ((".docx").toList), ((".pptx").toList)]) :
    ∃ content,
      get_uploaded_file_content readPdf readDocx readPptx f = Except.ok content ∧
      ingest_uploaded_file readPdf readDocx readPptx embed inmemory f st =
        Except.ok (UploadResult.mk (("success").toList)
          ((add_documents embed inmemory
              (split_documents [PyDocument.mk content f.filename]) st).1)
          (("Successfully ingested uploaded file.").toList) content f.filename,
          (add_documents embed inmemory
            (split_documents [PyDocument.mk content f.filename]) st).2) := by
  have hok : ∃ content,
      get_uploaded_file_content readPdf readDocx readPptx f = Except.ok content := by
    simp only [List.mem_cons, List.not_mem_nil, or_false] at h
    rcases h with h | h | h | h | h
    · exact ⟨decodeUtf8Ignore f.bytes, by simp [get_uploaded_file_content, h]⟩
    · exact ⟨decodeUtf8Ignore f.bytes, by simp [get_uploaded_file_content, h]⟩
    · exact ⟨readPdf f.bytes, by simp [get_uploaded_file_content, h]⟩
    · exact ⟨readDocx f.bytes, by simp [get_uploaded_file_content, h]⟩
    · exact ⟨readPptx f.bytes, by simp [get_uploaded_file_content, h]⟩
  obtain ⟨content, hc⟩ := hok
  refine ⟨content, hc, ?_⟩
  simp [ingest_uploaded_file, hc]

/-- Witness for C7 at a concrete text upload. -/
theorem claim_C7_upload_result_witness :
    ∃ content,
      get_uploaded_file_content (fun _ => []) (fun _ => []) (fun _ => [])
          (UploadedFile.mk (("notes.txt").toList) [104, 105]) = Except.ok content ∧
      ingest_uploaded_file (fun _ => []) (fun _ => []) (fun _ => [])
          (fun _ => [1]) false (UploadedFile.mk (("notes.txt").toList) [104, 105]) initState =
        Except.ok (UploadResult.mk (("success").toList)
          ((add_documents (fun _ => [1]) false
              (split_documents [PyDocument.mk content (("notes.txt").toList)]) initState).1)
          (("Successfully ingested uploaded file.").toList) content (("notes.txt").toList),
          (add_documents (fun _ => [1]) false
            (split_documents [PyDocument.mk content (("notes.txt").toList)]) initState).2) :=
  claim_C7_upload_result (fun _ => []) (fun _ => []) (fun _ => []) (fun _ => [1]) false
    (UploadedFile.mk (("notes.txt").toList) [104, 105]) initState (by decide)

/-- Membership after descending insertion. -/
theorem mem_insertDesc {z x : Int × Entry} : ∀ {l : List (Int × Entry)},
    z ∈ insertDesc x l → z = x ∨ z ∈ l := by
  intro l
  induction l with
  | nil => intro h; simp only [insertDesc, List.mem_singleton] at h; exact Or.inl h
  | cons y ys ih =>
    intro h
    by_cases hc : x.1 > y.1
    · simp only [insertDesc, if_pos hc] at h
      rcases List.mem_cons.mp h with h | h
      · exact Or.inl h
      · exact Or.inr h
    · simp only [insertDesc, if_neg hc] at h
      rcases List.mem_cons.mp h with h | h
      · exact Or.inr (h ▸ List.mem_cons_self y ys)
      · rcases ih h with h2 | h2
        · exact Or.inl h2
        · exact Or.inr (List.mem_cons_of_mem y h2)

/-- Membership is preserved by the descending sort. -/
theorem mem_sortDesc {z : Int × Entry} : ∀ {l : List (Int × Entry)},
    z ∈ sortDesc l → z ∈ l := by
  intro l
  induction l with
  | nil => intro h; simp [sortDesc] at h
  | cons y ys ih =>
    intro h
    rcases mem_insertDesc h with h2 | h2
    · exact h2 ▸ List.mem_cons_self y ys
    · exact List.mem_cons_of_mem y (ih h2)

/-- Every entry returned by a similarity search is stored in the searched
store. -/
theorem mem_of_similarity_search {e : Entry} (embed : List Char → List Int)
    (store : List Entry) (query : List Char) (k : Nat)
    (h : e ∈ similarity_search embed store query k) : e ∈ store := by
  simp only [similarity_search, List.mem_map] at h
  obtain ⟨p, hp, hpe⟩ := h
  have hp2 : p ∈ sortDesc (store.map (fun e => (dotInt (embed query) e.vec, e))) :=
    List.mem_of_mem_take hp
  have hp3 := mem_sortDesc hp2
  simp only [List.mem_map] at hp3
  obtain ⟨x, hx, hxp⟩ := hp3
  have : p.2 = x := by rw [← hxp]
  rw [← hpe, this]
  exact hx

/-- Ids assigned by `mkEntries` lie in `[base, base + count)`. -/
theorem eid_bounds_of_mem_mkEntries (embed : List Char → List Int) :
    ∀ (cs : List ChunkDoc) (base : Nat) (e : Entry),
    e ∈ mkEntries embed base cs → base ≤ e.eid ∧ e.eid < base + cs.length := by
  intro cs
  induction cs with
  | nil => intro base e h; simp [mkEntries] at h
  | cons c rest ih =>
    intro base e h
    simp only [mkEntries, List.mem_cons] at h
    rcases h with h | h
    · subst h
      exact ⟨Nat.le_refl _, by simp only [List.length_cons]; omega⟩
    · have := ih (base + 1) e h
      simp only [List.length_cons]
      omega

/-- The state after a durable add. -/
theorem add_documents_false_state (embed : List Char → List Int) (cs : List ChunkDoc)
    (st : RagState) :
    (add_documents embed false cs st).2 =
      RagState.mk (st.durable ++ mkEntries embed st.nextId cs) st.ephemeral
        (st.nextId + cs.length) := rfl

/-- The state after an ephemeral add. -/
theorem add_documents_true_state (embed : List Char → List Int) (cs : List ChunkDoc)
    (st : RagState) :
    (add_documents embed true cs st).2 =
      RagState.mk st.durable (st.ephemeral ++ mkEntries embed st.nextId cs)
        (st.nextId + cs.length) := rfl

/-- The initial state satisfies the store invariant. -/
theorem stateInv_init : StateInv initState := by
  refine ⟨?_, ?_, ?_⟩ <;> intro e he <;> simp [initState] at he

/-- `add_documents` preserves the store invariant. -/
theorem stateInv_add (embed : List Char → List Int) (im : Bool) (cs : List ChunkDoc)
    (st : RagState) (h : StateInv st) :
    StateInv (add_documents embed im cs st).2 := by
  obtain ⟨hd, he, hdis⟩ := h
  cases im
  · rw [add_documents_false_state]
    refine ⟨?_, ?_, ?_⟩ <;> dsimp only
    · intro e hm
      rcases List.mem_append.mp hm with hm | hm
      · have := hd e hm; omega
      · have := eid_bounds_of_mem_mkEntries embed cs st.nextId e hm; omega
    · intro e hm
      have := he e hm; omega
    · intro e hm e2 hm2
      rcases List.mem_append.mp hm with hm | hm
      · exact hdis e hm e2 hm2
      · have h1 := eid_bounds_of_mem_mkEntries embed cs st.nextId e hm
        have h2 := he e2 hm2
        omega
  · rw [add_documents_true_state]
    refine ⟨?_, ?_, ?_⟩ <;> dsimp only
    · intro e hm
      have := hd e hm; omega
    · intro e hm
      rcases List.mem_append.mp hm with hm | hm
      · have := he e hm; omega
      · have := eid_bounds_of_mem_mkEntries embed cs st.nextId e hm; omega
    · intro e hm e2 hm2
      rcases List.mem_append.mp hm2 with hm2 | hm2
      · exact hdis e hm e2 hm2
      · have h1 := eid_bounds_of_mem_mkEntries embed cs st.nextId e2 hm2
        have h2 := hd e hm
        omega

/-- Running any sequence of additions preserves the store invariant. -/
theorem stateInv_runOps (embed : List Char → List Int) :
    ∀ (ops : List RagOp) (st : RagState), StateInv st → StateInv (runOps embed ops st) := by
  intro ops
  induction ops with
  | nil => intro st h; exact h
  | cons op rest ih =>
    intro st h
    cases op with
    | add im cs => exact ih _ (stateInv_add embed im cs st h)

/-- Claim C5: after any sequence of additions to the two index instances,
entries returned by a search against the durable index are disjoint (by id)
from everything stored in the ephemeral index, and entries returned by a
search against the ephemeral index are disjoint from everything stored in the
durable index. -/
theorem claim_C5_isolation (embed : List Char → List Int) (ops : List RagOp)
    (q1 q2 : List Char) (k1 k2 : Nat) :
    (∀ e ∈ vector_search embed false q1 k1 (runOps embed ops initState),
      ∀ e2 ∈ (runOps embed ops initState).ephemeral, e.eid ≠ e2.eid) ∧
    (∀ e ∈ vector_search embed true q2 k2 (runOps embed ops initState),
      ∀ e2 ∈ (runOps embed ops initState).durable, e.eid ≠ e2.eid) := by
  obtain ⟨hd, he, hdis⟩ := stateInv_runOps embed ops initState stateInv_init
  constructor
  · intro e hmem e2 h2
    exact hdis e (mem_of_similarity_search embed _ q1 k1 hmem) e2 h2
  · intro e hmem e2 h2
    exact fun hEq =>
      hdis e2 h2 e (mem_of_similarity_search embed _ q2 k2 hmem) hEq.symm

/-- Witness for C5: a concrete run with one ephemeral and one durable entry;
the durable search result's id differs from the ephemeral entry's id. -/
theorem claim_C5_isolation_witness :
    (Entry.mk 1 (ChunkDoc.mk (("bbb").toList) (("d.txt").toList) 0) [1]).eid ≠
      (Entry.mk 0 (ChunkDoc.mk (("aaa").toList) (("e.txt").toList) 0) [1]).eid :=
  (claim_C5_isolation (fun _ => [1])
      [RagOp.add true [ChunkDoc.mk (("aaa").toList) (("e.txt").toList) 0],
        RagOp.add false [ChunkDoc.mk (("bbb").toList) (("d.txt").toList) 0]]
      (("q").toList) (("q").toList) 4 4).1
    (Entry.mk 1 (ChunkDoc.mk (("bbb").toList) (("d.txt").toList) 0) [1]) (by decide)
    (Entry.mk 0 (ChunkDoc.mk (("aaa").toList) (("e.txt").toList) 0) [1]) (by decide)

/-- Claim C1 counterexample: on the text " a" the chunker produces the single
chunk "a" — the leading space is stripped — so the prescribed reconstruction
returns "a", not " a": a character of the input is silently dropped. -/
theorem claim_C1_counterexample :
    split_text ([' ', 'a']) = [['a']] ∧
    reconstructPrefixes 200 (split_text ([' ', 'a'])) ≠ [' ', 'a'] := by
  decide

/-- A list without leading whitespace is unchanged by left strip. -/
theorem lstrip_of_no_ws (l : List Char) (h : ∀ c ∈ l, isPySpace c = false) :
    lstrip l = l := by
  cases l with
  | nil => rfl
  | cons c rest =>
    have hc := h c (List.mem_cons_self c rest)
    simp [lstrip, hc]

/-- A whitespace-free list is unchanged by `str.strip()`. -/
theorem pyStrip_of_no_ws (l : List Char) (h : ∀ c ∈ l, isPySpace c = false) :
    pyStrip l = l := by
  have h2 : ∀ c ∈ l.reverse, isPySpace c = false := fun c hc => h c (List.mem_reverse.mp hc)
  simp [pyStrip, rstrip, lstrip_of_no_ws l h, lstrip_of_no_ws l.reverse h2]

/-- Joining character singletons with the empty separator restores the text. -/
theorem joinSep_nil_singles : ∀ (T : List Char), joinSep [] (T.map (fun c => [c])) = T := by
  intro T
  induction T with
  | nil => rfl
  | cons c rest ih =>
    cases rest with
    | nil => rfl
    | cons c2 rest2 =>
      show [c] ++ [] ++ joinSep [] ((c2 :: rest2).map (fun c => [c])) = c :: c2 :: rest2
      rw [ih]
      rfl

/-- If a separator occurs as a substring, all its characters occur in the
text. -/
theorem mem_of_containsSub (sep : List Char) : ∀ (T : List Char),
    containsSub sep T = true → ∀ c ∈ sep, c ∈ T := by
  intro T
  induction T with
  | nil =>
    intro h c hc
    simp only [containsSub] at h
    have hsep : sep = [] := by
      cases sep with
      | nil => rfl
      | cons s ss => simp [List.isPrefixOf] at h
    subst hsep; simp at hc
  | cons d rest ih =>
    intro h c hc
    simp only [containsSub, Bool.or_eq_true] at h
    rcases h with h | h
    · exact (List.isPrefixOf_iff_prefix.mp h).subset hc
    · exact List.mem_cons_of_mem d (ih h c hc)

/-- A separator containing a whitespace character does not occur in
whitespace-free text. -/
theorem containsSub_eq_false (sep T : List Char) (c : Char)
    (hmem : c ∈ sep) (hws : isPySpace c = true)
    (h : ∀ x ∈ T, isPySpace x = false) : containsSub sep T = false := by
  cases hx : containsSub sep T
  · rfl
  · have hcT := mem_of_containsSub sep T hx c hmem
    simp [h c hcT] at hws

/-- Separator selection on whitespace-free text falls through to the empty
separator. -/
theorem selectSep_no_ws (T : List Char) (h : ∀ x ∈ T, isPySpace x = false) :
    selectSep T defaultSeparators = ([], []) := by
  have h1 : containsSub (['\n', '\n']) T = false :=
    containsSub_eq_false _ T '\n' (by decide) (by decide) h
  have h2 : containsSub (['\n']) T = false :=
    containsSub_eq_false _ T '\n' (by decide) (by decide) h
  have h3 : containsSub ([' ']) T = false :=
    containsSub_eq_false _ T ' ' (by decide) (by decide) h
  simp [defaultSeparators, selectSep, h1, h2, h3]

/-- With all splits short, the good-splits loop merges the whole buffer. -/
theorem goodLoop_all_inl (m : List (List Char) → List (List Char)) :
    ∀ (xs good : List (List Char)),
    goodLoop m (xs.map Sum.inl) good =
      if good ++ xs = [] then [] else m (good ++ xs) := by
  intro xs
  induction xs with
  | nil => intro good; simp [goodLoop]
  | cons x xs2 ih =>
    intro good
    show goodLoop m (Sum.inl x :: xs2.map Sum.inl) good = _
    rw [goodLoop, ih (good ++ [x])]
    have hassoc : (good ++ [x]) ++ xs2 = good ++ x :: xs2 := by simp
    rw [hassoc]

/-- On whitespace-free text the splitter reduces to merging the character
singletons. -/
theorem split_text_no_ws (T : List Char) (h : ∀ x ∈ T, isPySpace x = false) :
    split_text T = if T = [] then [] else mergeSplits 1000 200 [] (T.map (fun c => [c])) := by
  have hsel := selectSep_no_ws T h
  have hstep : split_text T = goodLoop (mergeSplits 1000 200 [])
      ((T.map (fun c => [c])).map
        (fun s => if s.length < 1000 then Sum.inl s else Sum.inr [s])) [] := by
    show splitTextFuel 1000 200 (3 + 1) defaultSeparators T = _
    rw [splitTextFuel, hsel]
    norm_num
  rw [hstep]
  have hmap : (T.map (fun c => [c])).map
      (fun s => if s.length < 1000 then (Sum.inl s : List Char ⊕ List (List Char))
        else Sum.inr [s]) =
      (T.map (fun c => [c])).map Sum.inl := by
    apply List.map_congr_left
    intro s hs
    obtain ⟨c, _, rfl⟩ := List.mem_map.mp hs
    norm_num
  rw [hmap, goodLoop_all_inl]
  simp [List.map_eq_nil_iff]

/-- On character singletons the pop loop retains exactly the last 200
characters (or everything, when at most 200 are held). -/
theorem popLoop_singles : ∀ (C : List Char),
    popLoop 1000 200 0 1 (C.map (fun c => [c])) C.length =
      ((C.drop (C.length - 200)).map (fun c => [c]), min C.length 200) := by
  intro C
  induction C with
  | nil => simp [popLoop]
  | cons c cs ih =>
    by_cases hlen : cs.length + 1 ≤ 200
    · rw [List.map_cons, List.length_cons, popLoop, if_neg]
      · have h0 : cs.length + 1 - 200 = 0 := by omega
        simp [h0, Nat.min_eq_left hlen]
      · simp only [ite_self]
        omega
    · push_neg at hlen
      rw [List.map_cons, List.length_cons, popLoop, if_pos (Or.inl (by omega))]
      have harg : cs.length + 1 -
          (List.length [c] + if cs.map (fun c => [c]) ≠ [] then 0 else 0) = cs.length := by
        simp only [ite_self, List.length_singleton]
        omega
      rw [harg, ih]
      have h1 : cs.length + 1 - 200 = (cs.length - 200) + 1 := by omega
      rw [h1, List.drop_succ_cons]
      have h2 : min cs.length 200 = 200 := by omega
      have h3 : min (cs.length + 1) 200 = 200 := by omega
      rw [h2, h3]

/-- `chunksSpec` on short text. -/
theorem chunksSpec_small (T : List Char) (h : T.length ≤ 1000) :
    chunksSpec T = if T = [] then [] else [T] := by
  rw [chunksSpec]
  simp [h]

/-- `chunksSpec` on long text. -/
theorem chunksSpec_big (T : List Char) (h : 1000 < T.length) :
    chunksSpec T = T.take 1000 :: chunksSpec (T.drop 800) := by
  rw [chunksSpec]
  rw [if_neg (by omega)]

/-- `chunksSpec` of nonempty text is nonempty. -/
theorem chunksSpec_ne_nil (T : List Char) (h : T ≠ []) : chunksSpec T ≠ [] := by
  by_cases hl : T.length ≤ 1000
  · rw [chunksSpec_small T hl]; simp [h]
  · rw [chunksSpec_big T (by omega)]; simp

/-- The prescribed reconstruction inverts `chunksSpec`. -/
theorem reconstruct_chunksSpec : ∀ (n : Nat) (T : List Char), T.length ≤ n →
    reconstructPrefixes 200 (chunksSpec T) = T := by
  intro n
  induction n with
  | zero =>
    intro T hT
    have hnil : T = [] := List.eq_nil_of_length_eq_zero (by omega)
    subst hnil
    rw [chunksSpec_small _ (by simp)]
    simp [reconstructPrefixes]
  | succ n ih =>
    intro T hT
    by_cases hl : T.length ≤ 1000
    · rw [chunksSpec_small T hl]
      by_cases hnil : T = []
      · subst hnil; simp [reconstructPrefixes]
      · simp [hnil, reconstructPrefixes]
    · push_neg at hl
      rw [chunksSpec_big T hl]
      have hne : chunksSpec (T.drop 800) ≠ [] := by
        apply chunksSpec_ne_nil
        intro hcon
        have hz : T.length - 800 = 0 := by
          rw [← List.length_drop, hcon]; rfl
        omega
      obtain ⟨c2, rest, hcr⟩ : ∃ c2 rest, chunksSpec (T.drop 800) = c2 :: rest := by
        cases hx : chunksSpec (T.drop 800) with
        | nil => exact absurd hx hne
        | cons a b => exact ⟨a, b, rfl⟩
      rw [hcr]
      show (T.take 1000).take ((T.take 1000).length - 200) ++
        reconstructPrefixes 200 (c2 :: rest) = T
      rw [← hcr, ih (T.drop 800) (by simp [List.length_drop]; omega)]
      have hlen1000 : (T.take 1000).length = 1000 := by
        simp [List.length_take]; omega
      rw [hlen1000]
      have htt : (T.take 1000).take (1000 - 200) = T.take 800 := by
        rw [List.take_take]
        norm_num
      rw [htt]
      exact List.take_append_drop 800 T

/-- On whitespace-free text the merge loop produces exactly the
1000-character windows advancing by 800 characters. -/
theorem mergeGo_singles : ∀ (L C : List Char) (acc : List (List Char)),
    C.length ≤ 1000 →
    (∀ x ∈ C, isPySpace x = false) → (∀ x ∈ L, isPySpace x = false) →
    mergeGo 1000 200 [] (L.map (fun c => [c])) (C.map (fun c => [c])) C.length acc =
      acc ++ chunksSpec (C ++ L) := by
  intro L
  induction L with
  | nil =>
    intro C acc hC hwC _
    show acc ++ joinDocs [] (C.map (fun c => [c])) = acc ++ chunksSpec (C ++ [])
    rw [List.append_nil, chunksSpec_small C hC]
    congr 1
    simp only [joinDocs, joinSep_nil_singles, pyStrip_of_no_ws C hwC]
  | cons d L2 ih =>
    intro C acc hC hwC hwL
    have hwd : isPySpace d = false := hwL d (List.mem_cons_self d L2)
    have hwL2 : ∀ x ∈ L2, isPySpace x = false := fun x hx => hwL x (List.mem_cons_of_mem d hx)
    rw [List.map_cons]
    simp only [mergeGo, List.length_nil, List.length_singleton, ite_self, Nat.add_zero]
    by_cases hfull : C.length = 1000
    · rw [if_pos (by omega)]
      have hCne : C ≠ [] := by intro hc; rw [hc] at hfull; simp at hfull
      have hCmapne : C.map (fun c => [c]) ≠ [] := by simp [hCne]
      rw [if_pos hCmapne, popLoop_singles C]
      have e1 : C.length - 200 = 800 := by omega
      have e2 : min C.length 200 = 200 := by omega
      rw [e1, e2]
      have hjoin : joinDocs [] (C.map (fun c => [c])) = [C] := by
        simp only [joinDocs, joinSep_nil_singles, pyStrip_of_no_ws C hwC]
        rw [if_neg hCne]
      rw [hjoin]
      have hsingle : ([[d]] : List (List Char)) = [d].map (fun c => [c]) := rfl
      rw [hsingle, ← List.map_append]
      have hlen201 : (200 + 1 : Nat) = (C.drop 800 ++ [d]).length := by
        simp [List.length_drop]; omega
      rw [hlen201]
      have hw2 : ∀ x ∈ C.drop 800 ++ [d], isPySpace x = false := by
        intro x hx
        rcases List.mem_append.mp hx with hx | hx
        · exact hwC x (List.mem_of_mem_drop hx)
        · rw [List.mem_singleton.mp hx]; exact hwd
      rw [ih (C.drop 800 ++ [d]) (acc ++ [C]) (by simp [List.length_drop]; omega) hw2 hwL2]
      have hbig : 1000 < (C ++ d :: L2).length := by simp; omega
      rw [chunksSpec_big _ hbig]
      have htake : (C ++ d :: L2).take 1000 = C := by
        rw [← hfull]; exact List.take_left C (d :: L2)
      have hdrop : (C ++ d :: L2).drop 800 = C.drop 800 ++ d :: L2 :=
        List.drop_append_of_le_length (by omega)
      rw [htake, hdrop]
      simp
    · rw [if_neg (by omega)]
      have hsingle : ([[d]] : List (List Char)) = [d].map (fun c => [c]) := rfl
      rw [hsingle, ← List.map_append]
      have hlen : (C.length + 1 : Nat) = (C ++ [d]).length := by simp
      rw [hlen]
      have hw2 : ∀ x ∈ C ++ [d], isPySpace x = false := by
        intro x hx
        rcases List.mem_append.mp hx with hx | hx
        · exact hwC x hx
        · rw [List.mem_singleton.mp hx]; exact hwd
      rw [ih (C ++ [d]) acc (by simp; omega) hw2 hwL2]
      congr 1
      simp

/-- Claim C1 amended: for every input text containing no whitespace
characters (the hard character-cut regime, where neither separator-based
splitting nor whitespace stripping engages), splitting with the chunker
(chunk size 1000, overlap 200) and concatenating each non-final chunk's
first (length - overlap) characters followed by the final chunk reconstructs
the text exactly.  (For general text, whitespace at chunk boundaries is
stripped, as the counterexample shows.) -/
theorem claim_C1_amended (T : List Char) (hw : wsFree T = true) :
    reconstructPrefixes 200 (split_text T) = T := by
  have hmem : ∀ c ∈ T, isPySpace c = false := by
    intro c hc
    have h1 := (List.all_eq_true.mp hw) c hc
    simpa using h1
  rw [split_text_no_ws T hmem]
  by_cases hnil : T = []
  · rw [if_pos hnil, hnil]
    rfl
  · rw [if_neg hnil]
    have h0 := mergeGo_singles T [] [] (by simp) (by simp) hmem
    simp only [List.map_nil, List.length_nil, List.nil_append] at h0
    show reconstructPrefixes 200 (mergeGo 1000 200 [] (T.map (fun c => [c])) [] 0 []) = T
    rw [h0]
    exact reconstruct_chunksSpec T.length T (Nat.le_refl _)

/-- Witness for the amended C1 at a concrete whitespace-free text. -/
theorem claim_C1_amended_witness :
    reconstructPrefixes 200 (split_text (("abc").toList)) = ("abc").toList :=
  claim_C1_amended (("abc").toList) (by decide)
